import Mathlib

/-!
Verification development for the release-readiness repository.

Shallow embedding of the synchronization core and the readiness evaluator:
  * `computeReadiness`  — internal/server/handlers_api.go, computeReadiness
  * jira sync           — internal/jira (client.go: Syncer.SyncOnce, syncVersion,
                          SearchIssues, doGetWithRetry, ParseVersionFromSummary,
                          FixVersionToS3App) and the db layer (UpsertJiraIssue,
                          DeleteJiraIssuesNotIn)
  * s3 sync             — internal/s3 (Syncer.SyncOnce, ingest)
  * konflux conversion  — internal/konflux/snapshot.go (Convert, parseTestResults,
                          normalizeStatus)

Modelling conventions: Go `time.Time` values are Unix seconds as `Int`
(`t1.After(t2)` is `t2 < t1`, `t1.Sub(t2).Hours()/24` truncated to `int` is
integer division by 86400 on the nonnegative side); Go `nil`-able values are
`Option`; external collaborators (HTTP servers, the SQL store, JSON decoding)
are explicit function arguments or inductive state so that every definition
is executable.
-/

namespace ReleaseReadiness

/-! ## Data model (internal/model/model.go) -/

/-- model.IssueSummary: aggregate counts of JIRA issues for a release. -/
structure IssueSummary where
  total : Int
  verified : Int
  «open» : Int
  cves : Int
  bugs : Int
deriving DecidableEq

/-- model.ReleaseVersion: a JIRA fixVersion with release metadata.
Dates (`ReleaseDate`, `DueDate`, Go `*time.Time`) are Unix seconds. -/
structure ReleaseVersion where
  name : String
  description : String
  releaseDate : Option Int
  released : Bool
  archived : Bool
  releaseTicketKey : String
  releaseTicketAssignee : String
  s3Application : String
  dueDate : Option Int
deriving DecidableEq

/-- model.ReadinessResponse: the (signal, message) pair. -/
structure ReadinessResponse where
  signal : String
  message : String
deriving DecidableEq

/-! ## Readiness evaluator (internal/server/handlers_api.go lines 212-244)

The Go function reads the wall clock (`now := time.Now()`); the embedding
takes `now` as an explicit first argument. -/

/-- `issueSummary != nil && issueSummary.Open > 0` from computeReadiness. -/
def openIssuesOf (issueSummary : Option IssueSummary) : Bool :=
  match issueSummary with
  | some s => decide (0 < s.«open»)
  | none => false

/-- `release.DueDate != nil && now.After(*release.DueDate)` from computeReadiness. -/
def pastDueOf (now : Int) (dueDate : Option Int) : Bool :=
  match dueDate with
  | some d => decide (d < now)
  | none => false

/-- computeReadiness (internal/server/handlers_api.go lines 212-244).
`daysUntil := int(release.DueDate.Sub(now).Hours() / 24)` truncates toward
zero; on the branch where it is evaluated the due date has not passed
(`now ≤ d`), so it equals `(d - now) / 86400` with `Int` division. -/
def computeReadiness (now : Int) (release : ReleaseVersion)
    (issueSummary : Option IssueSummary) (testsPassed : Bool) : ReadinessResponse :=
  if release.released then
    { signal := "green", message := "Released" }
  else
    let openIssues := openIssuesOf issueSummary
    if pastDueOf now release.dueDate then
      { signal := "red", message := "Past due date" }
    else if !testsPassed && openIssues then
      { signal := "red", message := "Tests failing and open issues remain" }
    else if !testsPassed then
      { signal := "yellow", message := "Integration tests failing" }
    else if openIssues then
      { signal := "yellow", message := "Open issues remain" }
    else
      match release.dueDate with
      | some d =>
        let daysUntil : Int := (d - now) / 86400
        if daysUntil ≤ 3 then
          { signal := "yellow", message := s!"Due date in {daysUntil} days" }
        else
          { signal := "green", message := "All checks passing" }
      | none => { signal := "green", message := "All checks passing" }

/-! ## JIRA data (internal/jira/client.go) -/

/-- jira.IssueFields, restricted to the fields syncVersion reads (summary,
status, priority, labels, assignee, issuetype, resolution, updated).
Nested name-only sub-structs (StatusField etc.) are inlined to their `Name`. -/
structure IssueFields where
  summary : String
  status : String
  priority : String
  labels : List String
  assignee : Option String
  issuetype : String
  resolution : Option String
  updated : String
deriving DecidableEq

/-- jira.Issue. -/
structure Issue where
  key : String
  fields : IssueFields
deriving DecidableEq

/-- model.JiraIssueRecord as stored by the db layer. `updatedAt` keeps the
issue's raw `updated` string: the RFC3339 parse/format round-trip and the
`time.Now()` fallback for unparseable timestamps are not modelled (they do
not affect which rows exist). -/
structure JiraIssueRecord where
  key : String
  summary : String
  status : String
  priority : String
  labels : String
  fixVersion : String
  assignee : String
  issueType : String
  resolution : String
  link : String
  updatedAt : String
deriving DecidableEq

/-- The record built for one issue inside Syncer.syncVersion
(internal/jira/client.go lines 566-599). -/
def issueToRecord (baseURL fixVersion : String) (issue : Issue) : JiraIssueRecord :=
  { key := issue.key
    summary := issue.fields.summary
    status := issue.fields.status
    priority := issue.fields.priority
    labels := String.intercalate "," issue.fields.labels
    fixVersion := fixVersion
    assignee := issue.fields.assignee.getD ""
    issueType := issue.fields.issuetype
    resolution := issue.fields.resolution.getD ""
    link := baseURL ++ "/browse/" ++ issue.key
    updatedAt := issue.fields.updated }

/-- Whether a stored row collides with `rec` on the natural key
(key, fix_version) — the `ON CONFLICT(key, fix_version)` clause. -/
def sameIssueKey (rec r : JiraIssueRecord) : Bool :=
  r.key == rec.key && r.fixVersion == rec.fixVersion

/-- DB.UpsertJiraIssue: `INSERT ... ON CONFLICT(key, fix_version) DO UPDATE`
over a row-list model of the jira_issues table. -/
def upsertJiraIssue (store : List JiraIssueRecord) (rec : JiraIssueRecord) :
    List JiraIssueRecord :=
  if store.any (sameIssueKey rec) then
    store.map (fun r => if sameIssueKey rec r then rec else r)
  else
    store ++ [rec]

/-- DB.DeleteJiraIssuesNotIn (src/unnamed/part_007 lines 186-200): with no
keys, `DELETE FROM jira_issues WHERE fix_version = ?`; otherwise
`DELETE ... WHERE fix_version = ? AND key NOT IN (keys)`. -/
def deleteJiraIssuesNotIn (store : List JiraIssueRecord) (fixVersion : String)
    (keys : List String) : List JiraIssueRecord :=
  if keys.isEmpty then
    store.filter (fun r => !(r.fixVersion == fixVersion))
  else
    store.filter (fun r => !(r.fixVersion == fixVersion && !(keys.contains r.key)))

/-- Syncer.syncVersion (internal/jira/client.go lines 559-611): upsert a
record per returned issue, then delete stored rows for this fixVersion whose
key was not returned. `issues` is the list `SearchIssues(fixVersion)`
returned this cycle; store writes never fail in the model. -/
def syncVersion (baseURL : String) (store : List JiraIssueRecord)
    (fixVersion : String) (issues : List Issue) : List JiraIssueRecord :=
  let store' := issues.foldl
    (fun st issue => upsertJiraIssue st (issueToRecord baseURL fixVersion issue)) store
  deleteJiraIssuesNotIn store' fixVersion (issues.map Issue.key)

/-! ## Issue-tracker reconciliation (internal/jira/client.go lines 524-555)

Phase B of Syncer.SyncOnce: every Release Version the store lists as active
(released=0 AND archived=0) that was not rediscovered this cycle gets a
direct GetVersion lookup; only if that lookup reports released or archived is
the record updated and its issues re-synced. -/

/-- jira.VersionField as returned by GetVersion. `releaseDate` abstracts the
Go string field together with its "2006-01-02" parse: `none` stands for an
empty or unparseable date string, `some d` for a date that parses to `d`. -/
structure VersionField where
  name : String
  description : String
  releaseDate : Option Int
  released : Bool
  archived : Bool
deriving DecidableEq

/-- The updated record written back by the reconciliation branch
(lines 540-547): released/archived flags copied from the lookup, release
date overwritten only when the looked-up date string parses. -/
def reconcileUpdate (dbv : ReleaseVersion) (vi : VersionField) : ReleaseVersion :=
  { dbv with
    released := vi.released
    archived := vi.archived
    releaseDate := match vi.releaseDate with
      | some d => some d
      | none => dbv.releaseDate }

/-- The observable actions of one reconciliation pass: which versions got a
GetVersion lookup, which records were upserted, and which versions had their
issues re-synced (all in store-list order). -/
structure ReconcileResult where
  lookedUp : List String
  upserts : List ReleaseVersion
  synced : List String
deriving DecidableEq

/-- The full reconciliation pass (lines 531-554): versions rediscovered this
cycle (`activeSet`) are skipped outright; every other stored active version
gets a GetVersion lookup (`getVersion`, `none` = error, also "version not
found"); a failed lookup, or one still reporting unreleased and unarchived,
leaves the version untouched; otherwise the updated record is upserted and
the version's issues are re-synced. -/
def reconcilePhase (getVersion : String → Option VersionField)
    (activeSet : List String) (dbVersions : List ReleaseVersion) :
    ReconcileResult :=
  match dbVersions with
  | [] => ⟨[], [], []⟩
  | dbv :: rest =>
    let tail := reconcilePhase getVersion activeSet rest
    if activeSet.contains dbv.name then tail
    else
      match getVersion dbv.name with
      | none => { tail with lookedUp := dbv.name :: tail.lookedUp }
      | some vi =>
        if vi.released || vi.archived then
          { lookedUp := dbv.name :: tail.lookedUp
            upserts := reconcileUpdate dbv vi :: tail.upserts
            synced := dbv.name :: tail.synced }
        else { tail with lookedUp := dbv.name :: tail.lookedUp }

/-! ## Snapshot data (internal/model/snapshot.go)

Fields the sync core never reads (StartTime, CompletionTime, Details,
JUnitPath, Releases) are omitted; `DurationSec float64` is carried as an
opaque `Int` that only ever passes through unchanged. -/

/-- model.TestSummary. -/
structure TestSummary where
  total : Int
  passed : Int
  failed : Int
  skipped : Int
  durationSec : Int
deriving DecidableEq

/-- model.TestResult (high-level outcome of one scenario run). -/
structure TestResult where
  scenario : String
  status : String
  pipelineRun : String
  summary : Option TestSummary
deriving DecidableEq

/-- model.Trigger. -/
structure Trigger where
  component : String
  gitSHA : String
  pipelineRun : String
deriving DecidableEq

/-- model.SnapshotComponent. -/
structure SnapshotComponent where
  name : String
  containerImage : String
  gitRevision : String
  gitURL : String
deriving DecidableEq

/-- model.Readiness. -/
structure Readiness where
  testsPassed : Bool
  released : Bool
  releaseBlockedReason : String
deriving DecidableEq

/-- model.Snapshot: one manifest fetched from the object store. -/
structure Snapshot where
  application : String
  snapshot : String
  createdAt : Int
  trigger : Trigger
  components : List SnapshotComponent
  testResults : List TestResult
  readiness : Readiness
deriving DecidableEq

/-! ## Persistent store rows written by the s3 syncer (internal/db) -/

/-- A row of the snapshots table (model.SnapshotRecord). -/
structure SnapshotRecord where
  id : Nat
  application : String
  name : String
  triggerComponent : String
  triggerGitSHA : String
  triggerPipelineRun : String
  testsPassed : Bool
  released : Bool
  releaseBlockedReason : String
  createdAt : Int
deriving DecidableEq

/-- A row of the snapshot_components table. -/
structure ComponentRecord where
  snapshotID : Nat
  component : String
  gitSHA : String
  imageURL : String
  gitURL : String
deriving DecidableEq

/-- A row of the snapshot_test_results table. -/
structure TestResultRecord where
  snapshotID : Nat
  scenario : String
  status : String
  pipelineRun : String
  total : Int
  passed : Int
  failed : Int
  skipped : Int
  durationSec : Int
deriving DecidableEq

/-- The tables the s3 syncer touches, as append-ordered row lists. -/
structure StoreState where
  snapshots : List SnapshotRecord
  components : List String
  snapshotComponents : List ComponentRecord
  snapshotTestResults : List TestResultRecord
deriving DecidableEq

/-- DB.SnapshotExistsByName. -/
def snapshotExistsByName (st : StoreState) (name : String) : Bool :=
  st.snapshots.any (fun r => r.name == name)

/-- DB.CreateSnapshot: inserts one row and returns it (row ids are assigned
sequentially, modelling the autoincrement primary key). -/
def createSnapshot (st : StoreState) (application name triggerComponent
    triggerGitSHA triggerPipelineRun : String) (testsPassed released : Bool)
    (releaseBlockedReason : String) (createdAt : Int) :
    StoreState × SnapshotRecord :=
  let row : SnapshotRecord :=
    { id := st.snapshots.length, application := application, name := name
      triggerComponent := triggerComponent, triggerGitSHA := triggerGitSHA
      triggerPipelineRun := triggerPipelineRun, testsPassed := testsPassed
      released := released, releaseBlockedReason := releaseBlockedReason
      createdAt := createdAt }
  ({ st with snapshots := st.snapshots ++ [row] }, row)

/-- DB.EnsureComponent: insert the component name if not already present. -/
def ensureComponent (st : StoreState) (name : String) : StoreState :=
  if st.components.contains name then st
  else { st with components := st.components ++ [name] }

/-- DB.CreateSnapshotComponent. -/
def createSnapshotComponent (st : StoreState) (snapshotID : Nat)
    (component gitSHA imageURL gitURL : String) : StoreState :=
  { st with snapshotComponents := st.snapshotComponents ++
      [{ snapshotID := snapshotID, component := component, gitSHA := gitSHA
         imageURL := imageURL, gitURL := gitURL }] }

/-- DB.CreateSnapshotTestResult. -/
def createSnapshotTestResult (st : StoreState) (snapshotID : Nat)
    (scenario status pipelineRun : String)
    (total passed failed skipped durationSec : Int) : StoreState :=
  { st with snapshotTestResults := st.snapshotTestResults ++
      [{ snapshotID := snapshotID, scenario := scenario, status := status
         pipelineRun := pipelineRun, total := total, passed := passed
         failed := failed, skipped := skipped, durationSec := durationSec }] }

/-! ## Object-store syncer (src/unnamed/part_009, package s3) -/

/-- The s3.Client surface the syncer consumes. `none` models a fetch error
(logged and skipped by the syncer, or — for ListApplications — aborting the
pass). -/
structure S3Client where
  listApplications : Option (List String)
  listSnapshots : String → Option (List String)
  getSnapshot : String → Option Snapshot
  getTestResults : String → Option TestSummary

/-- Go path.Dir restricted to already-clean keys: everything before the last
slash ("." when there is none, "/" for a root-level path). The Clean()
normalisation of duplicate slashes and dot segments is not modelled — the
syncer only applies this to keys of the form `app/snapshots/name/file`. -/
def pathDir (p : String) : String :=
  match p.data.reverse.dropWhile (fun c => !(c == '/')) with
  | [] => "."
  | _ :: rest => if rest.isEmpty then "/" else String.mk rest.reverse

/-- Syncer.ingest (part_009 lines 91-165): fetch junit summaries for each
scenario (missing data leaves the summary nil), create the snapshot row,
then its component rows and test-result rows. Store writes never fail in
the model. -/
def ingest (client : S3Client) (st : StoreState) (key : String)
    (snap : Snapshot) : StoreState :=
  let snapshotDir := pathDir key ++ "/"
  let trs := snap.testResults.map (fun tr =>
    match client.getTestResults (snapshotDir ++ "junit/" ++ tr.scenario ++ "/") with
    | none => tr
    | some r =>
      let s : TestSummary :=
        { total := r.total, passed := r.passed, failed := r.failed
          skipped := r.skipped, durationSec := r.durationSec }
      { tr with summary := some s })
  let created := createSnapshot st snap.application snap.snapshot
    snap.trigger.component snap.trigger.gitSHA snap.trigger.pipelineRun
    snap.readiness.testsPassed snap.readiness.released
    snap.readiness.releaseBlockedReason snap.createdAt
  let st1 := created.1
  let row := created.2
  let st2 := snap.components.foldl (fun acc comp =>
    createSnapshotComponent (ensureComponent acc comp.name) row.id
      comp.name comp.gitRevision comp.containerImage comp.gitURL) st1
  trs.foldl (fun acc tr =>
    createSnapshotTestResult acc row.id tr.scenario tr.status tr.pipelineRun
      ((tr.summary.map TestSummary.total).getD 0)
      ((tr.summary.map TestSummary.passed).getD 0)
      ((tr.summary.map TestSummary.failed).getD 0)
      ((tr.summary.map TestSummary.skipped).getD 0)
      ((tr.summary.map TestSummary.durationSec).getD 0)) st2

/-- Syncer.SyncOnce (part_009 lines 51-88): enumerate applications and
snapshot keys, fetch each manifest, skip it when a snapshot with that name
already exists, otherwise ingest it. Per-item fetch errors skip that item;
a ListApplications error aborts the pass. -/
def s3SyncOnce (client : S3Client) (st : StoreState) : StoreState :=
  match client.listApplications with
  | none => st
  | some apps => apps.foldl (fun acc app =>
      match client.listSnapshots app with
      | none => acc
      | some keys => keys.foldl (fun acc2 key =>
          match client.getSnapshot key with
          | none => acc2
          | some snap =>
            if snapshotExistsByName acc2 snap.snapshot then acc2
            else ingest client acc2 key snap) acc) st

/-- Executable check that every snapshot the upstream listing can deliver
already exists in the store (the premise of the idempotence property). -/
def noNewSnapshots (client : S3Client) (st : StoreState) : Bool :=
  match client.listApplications with
  | none => true
  | some apps => apps.all (fun app =>
      match client.listSnapshots app with
      | none => true
      | some keys => keys.all (fun key =>
          match client.getSnapshot key with
          | none => true
          | some snap => snapshotExistsByName st snap.snapshot))

/-! ## Retry wrapper (internal/jira/client.go lines 301-341)

`doGet` is abstracted as an oracle `responses : Nat → GetResult` giving the
outcome of the attempt-th HTTP GET. The wrapper's observable behaviour is a
chronological event trace (waits in seconds, requests by attempt number),
the number of GETs issued, and the outcome. `New` fixes `minDelay` to 1
second and `maxRetries` is the hardcoded constant 3. -/

/-- Outcome of one underlying `doGet` call: 200 body, a 429 carrying the
raw Retry-After header value, or any other error (non-200 status, transport
or read failure) — the wrapper treats all of those identically. -/
inductive GetResult where
  | ok (body : String)
  | rateLimited (retryAfter : String) (body : String)
  | otherError (msg : String)

/-- The error value `doGetWithRetry` returns. -/
inductive RetryError where
  | rateLimit (retryAfter : String) (body : String)
  | other (msg : String)
deriving DecidableEq

/-- Result of the whole wrapped call. `maxRetriesExceeded` is the fallthrough
return after the loop (unreachable for `maxRetries ≥ 0`, see the code: every
iteration either returns or continues with `attempt < maxRetries`). -/
inductive RetryOutcome where
  | success (body : String)
  | failure (e : RetryError)
  | maxRetriesExceeded
deriving DecidableEq

/-- One observable event of the wrapper. -/
inductive RetryEvent where
  | wait (seconds : Nat)
  | request (attempt : Nat)
deriving DecidableEq

/-- Decimal digit run accumulated to a value; `none` on any non-digit. -/
def atoiDigits : List Char → Nat → Option Nat
  | [], acc => some acc
  | c :: rest, acc =>
    if c.isDigit then atoiDigits rest (acc * 10 + (c.toNat - '0'.toNat))
    else none

/-- strconv.Atoi on an unsigned decimal string (`none` = parse error). -/
def atoiNat (cs : List Char) : Option Nat :=
  match cs with
  | [] => none
  | _ => atoiDigits cs 0

/-- jira.parseRetryAfter: empty or unparseable Retry-After yields 0 seconds.
Go's strconv.Atoi also accepts signed forms; a `-` value never passes the
wrapper's `retryAfter > 0` guard, so it collapses to 0 here. -/
def parseRetryAfter (retryAfter : String) : Nat :=
  if retryAfter = "" then 0
  else
    match retryAfter.data with
    | '+' :: rest => (atoiNat rest).getD 0
    | '-' :: _ => 0
    | cs => (atoiNat cs).getD 0

/-- The hardcoded `maxRetries` constant of doGetWithRetry. -/
def maxRetries : Nat := 3

/-- The retry loop of doGetWithRetry, one recursive step per iteration of
`for attempt := 0; attempt <= maxRetries; attempt++`. `fuel` is the number
of remaining loop iterations (`maxRetries + 1 - attempt`); exhausting it is
the loop's fallthrough `max retries exceeded` return. Each iteration first
waits (the fixed `minDelay` on attempt 0, else `2^attempt` seconds), then
issues the GET; a rate-limited response with `attempt < maxRetries`
additionally waits any positive Retry-After hint and continues. -/
def doGetWithRetryGo (responses : Nat → GetResult) (minDelay : Nat) :
    Nat → Nat → List RetryEvent → Nat → List RetryEvent × Nat × RetryOutcome
  | 0, _, events, calls => (events, calls, RetryOutcome.maxRetriesExceeded)
  | fuel + 1, attempt, events, calls =>
    let events := if attempt > 0 || minDelay > 0 then
        events ++ [RetryEvent.wait (if attempt > 0 then 2 ^ attempt else minDelay)]
      else events
    let events := events ++ [RetryEvent.request attempt]
    let calls := calls + 1
    match responses attempt with
    | GetResult.ok body => (events, calls, RetryOutcome.success body)
    | GetResult.otherError msg =>
      (events, calls, RetryOutcome.failure (RetryError.other msg))
    | GetResult.rateLimited ra body =>
      if attempt < maxRetries then
        let hint := parseRetryAfter ra
        let events := if hint > 0 then events ++ [RetryEvent.wait hint] else events
        doGetWithRetryGo responses minDelay fuel (attempt + 1) events calls
      else (events, calls, RetryOutcome.failure (RetryError.rateLimit ra body))

/-- Client.doGetWithRetry with the `New`-configured 1-second minDelay. -/
def doGetWithRetry (responses : Nat → GetResult) :
    List RetryEvent × Nat × RetryOutcome :=
  doGetWithRetryGo responses 1 (maxRetries + 1) 0 [] 0

/-! ## Pagination (internal/jira/client.go lines 242-278, SearchIssues)

The decoded server response for a given `startAt` is an oracle
`server : Int → SearchResponse`; the URL construction (jql, fields, the
requested `maxResults=100`) and the transport (`doGetWithRetry`, whose
failure aborts the whole call) are outside the loop being modelled. The Go
loop does not terminate on a server that keeps answering short of `total`
with empty pages, so the model runs on fuel and returns `none` exactly when
the Go loop would still be running after `fuel` iterations. -/

/-- jira.searchResponse, restricted to the fields the loop reads. -/
structure SearchResponse where
  total : Int
  issues : List Issue

/-- The paging loop: accumulate `resp.Issues`, stop when
`startAt + len(resp.Issues) >= resp.Total`, else advance `startAt` by the
page length. Returns the merged issues and the number of upstream calls. -/
def searchIssuesLoop (server : Int → SearchResponse) :
    Nat → Int → List Issue → Nat → Option (List Issue × Nat)
  | 0, _, _, _ => none
  | fuel + 1, startAt, acc, calls =>
    let resp := server startAt
    let acc := acc ++ resp.issues
    let calls := calls + 1
    if startAt + (resp.issues.length : Int) ≥ resp.total then some (acc, calls)
    else searchIssuesLoop server fuel (startAt + (resp.issues.length : Int)) acc calls

/-- Client.SearchIssues' accumulation loop started at `startAt = 0`. -/
def searchIssues (server : Int → SearchResponse) (fuel : Nat) :
    Option (List Issue × Nat) :=
  searchIssuesLoop server fuel 0 [] 0

/-! ## Release-summary parsing (internal/jira/client.go lines 124-141 and
408-430)

`versionRe = (?i)(?:(\w+)\s+)?v?(\d+\.\d+(?:\.\d+)?)` under Go (RE2 classes
are ASCII: `\w` = [0-9A-Za-z_], `\s` = [\t\n\f\r ], `\d` = [0-9]) with
leftmost-first `FindStringSubmatch` semantics. Because `\w`/`\s`/digit `.`
boundaries are disjoint, the greedy quantifiers need no backtracking: at a
given start position the optional `(\w+)\s+` group matches exactly when the
maximal word run is nonempty and is followed by whitespace, and `v?` commits
to a present `v`/`V` (a version can never start at the `v` itself). -/

/-- RE2 `\w` (ASCII). -/
def isWordChar (c : Char) : Bool :=
  c.isAlphanum || c == '_'

/-- RE2 `\s` (ASCII). -/
def isSpaceChar (c : Char) : Bool :=
  c == ' ' || c == '\t' || c == '\n' || c == '\r' || c == Char.ofNat 12

/-- `\d+\.\d+(?:\.\d+)?` anchored at the head of `cs`: the greedy version
match (first two numeric components mandatory, third taken when present). -/
def parseVersionCore (cs : List Char) : Option String :=
  let d1 := cs.takeWhile Char.isDigit
  if d1.isEmpty then none
  else
    match cs.drop d1.length with
    | '.' :: rest2 =>
      let d2 := rest2.takeWhile Char.isDigit
      if d2.isEmpty then none
      else
        match rest2.drop d2.length with
        | '.' :: rest4 =>
          let d3 := rest4.takeWhile Char.isDigit
          if d3.isEmpty then some (String.mk (d1 ++ '.' :: d2))
          else some (String.mk (d1 ++ '.' :: d2 ++ '.' :: d3))
        | _ => some (String.mk (d1 ++ '.' :: d2))
    | _ => none

/-- `v?(\d+\.\d+(?:\.\d+)?)` anchored at the head of `cs` (case-insensitive
`v`; an unconsumed leading `v` can never start the numeric group). -/
def parseVeeVersion (cs : List Char) : Option String :=
  match cs with
  | [] => none
  | c :: rest =>
    if c == 'v' || c == 'V' then parseVersionCore rest
    else parseVersionCore cs

/-- The whole pattern anchored at the head of `cs`, leftmost-first: first
with the optional `(\w+)\s+` capture (maximal word run, then whitespace),
else without it. Returns (captured product or "", version). -/
def matchVersionAt (cs : List Char) : Option (String × String) :=
  let w := cs.takeWhile isWordChar
  let withGroup : Option (String × String) :=
    if w.isEmpty then none
    else
      let rest := cs.drop w.length
      let sp := rest.takeWhile isSpaceChar
      if sp.isEmpty then none
      else
        match parseVeeVersion (rest.drop sp.length) with
        | some ver => some (String.mk w, ver)
        | none => none
  match withGroup with
  | some r => some r
  | none =>
    match parseVeeVersion cs with
    | some ver => some ("", ver)
    | none => none

/-- `FindStringSubmatch`: scan start positions left to right. -/
def findVersionMatch : List Char → Option (String × String)
  | [] => none
  | c :: rest =>
    match matchVersionAt (c :: rest) with
    | some r => some r
    | none => findVersionMatch rest

/-- jira.ParseVersionFromSummary (lines 133-141): `none` when the regex does
not match, else the captured product lowercased (ASCII `Char.toLower`
coincides with strings.ToLower on these ASCII captures) and the version. -/
def ParseVersionFromSummary (summary : String) : Option (String × String) :=
  match findVersionMatch summary.data with
  | none => none
  | some (product, version) => some (String.mk (product.data.map Char.toLower), version)

/-- First index at which `pat` occurs in `cs` (strings.Index). -/
def indexOfSublist (cs pat : List Char) : Option Nat :=
  match cs with
  | [] => if pat.isEmpty then some 0 else none
  | _ :: rest =>
    if pat.isPrefixOf cs then some 0
    else (indexOfSublist rest pat).map (· + 1)

/-- strings.Split on a single "." separator. -/
def splitOnDotGo : List Char → List Char → List String
  | acc, [] => [String.mk acc.reverse]
  | acc, '.' :: rest => String.mk acc.reverse :: splitOnDotGo [] rest
  | acc, c :: rest => splitOnDotGo (c :: acc) rest

/-- jira.FixVersionToS3App (lines 412-430): a `{product}-v{version}` fix
version (the "-v" strictly after position 0) maps to `product-vMAJ-MIN`;
a plain semver maps to `quay-vMAJ-MIN`; fewer than two dot-separated
components yield "". -/
def FixVersionToS3App (fixVersion : String) : String :=
  let cs := fixVersion.data
  let hit : Bool := match indexOfSublist cs ['-', 'v'] with
    | some idx => decide (idx > 0)
    | none => false
  if hit then
    let idx := (indexOfSublist cs ['-', 'v']).getD 0
    let product := String.mk (cs.take idx)
    let version := cs.drop (idx + 2)
    let parts := splitOnDotGo [] version
    if parts.length ≥ 2 then
      product ++ "-v" ++ parts.getD 0 "" ++ "-" ++ parts.getD 1 ""
    else ""
  else
    let parts := splitOnDotGo [] cs
    if parts.length ≥ 2 then
      "quay-v" ++ parts.getD 0 "" ++ "-" ++ parts.getD 1 ""
    else ""

/-- The release derivation of the DiscoverActiveReleases loop body
(lines 185-222) restricted to its summary-derived fields: parse the summary
(discarding the ticket when the regex finds nothing), build the fixVersion
(`product-vX.Y.Z` unless the capture was empty or the word "release"),
derive the s3 application (discarding the ticket when that is empty).
Returns (fixVersion, s3Application). -/
def deriveRelease (summary : String) : Option (String × String) :=
  match ParseVersionFromSummary summary with
  | none => none
  | some (product, version) =>
    let fixVersion :=
      if product ≠ "" && product ≠ "release" then product ++ "-v" ++ version
      else version
    let s3App := FixVersionToS3App fixVersion
    if s3App = "" then none else some (fixVersion, s3App)

/-! ## Konflux snapshot conversion (internal/konflux/snapshot.go)

JSON decoding of the test-status annotation (`json.Unmarshal`) is an oracle
`jsonDecode : String → Option (List TestStatus)`; `none` models a decode
error (logged, treated as no test results). Annotation maps are association
lists. -/

/-- konflux.TestStatus: one scenario entry of the status annotation. -/
structure TestStatus where
  scenario : String
  status : String
  lastUpdateTime : String
deriving DecidableEq

/-- One entry of SnapshotCR.Spec.Components. -/
structure SnapshotCRComponent where
  name : String
  containerImage : String
  gitURL : String
  gitRevision : String
deriving DecidableEq

/-- konflux.SnapshotCR, flattened: metadata name/creation/annotations and
spec application/components (DeletionTimestamp is never read by Convert). -/
structure SnapshotCR where
  name : String
  creationTimestamp : Int
  annotations : List (String × String)
  application : String
  components : List SnapshotCRComponent
deriving DecidableEq

/-- Go map lookup `cr.Metadata.Annotations[key]` in its two-value form. -/
def annotationValue (cr : SnapshotCR) (key : String) : Option String :=
  (cr.annotations.find? (fun p => p.1 == key)).map Prod.snd

/-- One-value map lookup: missing keys read as "". -/
def annotationOrEmpty (cr : SnapshotCR) (key : String) : String :=
  (annotationValue cr key).getD ""

/-- strings.Contains. -/
def containsSub (s pat : String) : Bool :=
  (indexOfSublist s.data pat.data).isSome

/-- konflux.normalizeStatus (lines 124-136). The statuses involved are
ASCII, so `Char.toLower` matches strings.ToLower. -/
def normalizeStatus (status : String) : String :=
  let s := String.mk (status.data.map Char.toLower)
  if containsSub s "succeeded" || containsSub s "passed" then "passed"
  else if containsSub s "fail" || containsSub s "error" then "failed"
  else if containsSub s "inprogress" || containsSub s "pending" then "pending"
  else status

/-- konflux.parseTestResults (lines 101-121): missing or empty annotation,
or a decode failure, yields no results; otherwise one TestResult per entry
with the scenario and the normalized status. -/
def parseTestResults (jsonDecode : String → Option (List TestStatus))
    (cr : SnapshotCR) : List TestResult :=
  match annotationValue cr "test.appstudio.openshift.io/status" with
  | none => []
  | some raw =>
    if raw = "" then []
    else
      match jsonDecode raw with
      | none => []
      | some statuses => statuses.map (fun ts =>
          { scenario := ts.scenario, status := normalizeStatus ts.status
            pipelineRun := "", summary := none })

/-- konflux.deriveTrigger (lines 78-99). -/
def deriveTrigger (cr : SnapshotCR) : Trigger :=
  let component := annotationOrEmpty cr "build.appstudio.openshift.io/component"
  let pipelineRun := annotationOrEmpty cr "pac.test.appstudio.openshift.io/log-url"
  let gitSHA := match cr.components.find? (fun c => c.name == component) with
    | some c => c.gitRevision
    | none => ""
  if component = "" then
    match cr.components with
    | [] => { component := component, gitSHA := gitSHA, pipelineRun := pipelineRun }
    | first :: _ =>
      { component := first.name, gitSHA := first.gitRevision, pipelineRun := pipelineRun }
  else { component := component, gitSHA := gitSHA, pipelineRun := pipelineRun }

/-- The `allPassed` loop of Convert (lines 64-70): start from
`len(TestResults) > 0`, force false at the first non-"passed" status. -/
def convertAllPassedGo : Bool → List TestResult → Bool
  | acc, [] => acc
  | acc, tr :: rest => if tr.status ≠ "passed" then false else convertAllPassedGo acc rest

/-- konflux.Convert (lines 45-76). Only `TestsPassed` of the readiness is
set; `Released`/`ReleaseBlockedReason` keep their zero values. -/
def Convert (jsonDecode : String → Option (List TestStatus))
    (cr : SnapshotCR) : Snapshot :=
  let components : List SnapshotComponent := cr.components.map (fun c =>
    { name := c.name, containerImage := c.containerImage
      gitRevision := c.gitRevision, gitURL := c.gitURL })
  let testResults := parseTestResults jsonDecode cr
  let allPassed := convertAllPassedGo (testResults.length > 0) testResults
  { application := cr.application
    snapshot := cr.name
    createdAt := cr.creationTimestamp
    trigger := deriveTrigger cr
    components := components
    testResults := testResults
    readiness := { testsPassed := allPassed, released := false, releaseBlockedReason := "" } }

/-! ## Concrete fixtures used by theorems -/

/-- A release record with the given flags, other fields fixed. -/
def mkRelease (released : Bool) (dueDate : Option Int) : ReleaseVersion :=
  { name := "quay-v3.16.2", description := "", releaseDate := none
    released := released, archived := false, releaseTicketKey := "PROJQUAY-1"
    releaseTicketAssignee := "", s3Application := "quay-v3-16", dueDate := dueDate }

/-- An issue summary with the given open count. -/
def mkSummary (openCount : Int) : IssueSummary :=
  { total := openCount, verified := 0, «open» := openCount, cves := 0, bugs := 0 }

/-- Unreleased release due 288000 s (80 h, i.e. 3⅓ days) from time 0. -/
def rFarDue : ReleaseVersion := mkRelease false (some 288000)

/-! ## Theorems -/

/-- C1 (amended): the evaluator follows the seven-rule precedence order —
released wins outright; then a passed due date; then failing tests with open
issues; then failing tests; then open issues; then, when the whole-day count
until the due date (rounding down, `(d - now) / 86400`) is at most 3,
yellow "Due date in N days" with N that whole-day count; otherwise green
"All checks passing". (The claim's rule 6 trigger "due date at most 3 days
away" is amended to "fewer than 4 whole days away", which is what the
truncating day count implements.) -/
theorem computeReadiness_rule_order (now : Int) (r : ReleaseVersion)
    (s : Option IssueSummary) (t : Bool) :
    (r.released = true →
      computeReadiness now r s t = ⟨"green", "Released"⟩)
  ∧ (r.released = false → pastDueOf now r.dueDate = true →
      computeReadiness now r s t = ⟨"red", "Past due date"⟩)
  ∧ (r.released = false → pastDueOf now r.dueDate = false →
      t = false → openIssuesOf s = true →
      computeReadiness now r s t = ⟨"red", "Tests failing and open issues remain"⟩)
  ∧ (r.released = false → pastDueOf now r.dueDate = false →
      t = false → openIssuesOf s = false →
      computeReadiness now r s t = ⟨"yellow", "Integration tests failing"⟩)
  ∧ (r.released = false → pastDueOf now r.dueDate = false →
      t = true → openIssuesOf s = true →
      computeReadiness now r s t = ⟨"yellow", "Open issues remain"⟩)
  ∧ (∀ d, r.released = false → pastDueOf now r.dueDate = false →
      t = true → openIssuesOf s = false → r.dueDate = some d →
      (d - now) / 86400 ≤ 3 →
      computeReadiness now r s t = ⟨"yellow", s!"Due date in {(d - now) / 86400} days"⟩)
  ∧ (r.released = false → pastDueOf now r.dueDate = false →
      t = true → openIssuesOf s = false →
      (∀ d, r.dueDate = some d → 3 < (d - now) / 86400) →
      computeReadiness now r s t = ⟨"green", "All checks passing"⟩) := by
  refine ⟨?_, ?_, ?_, ?_, ?_, ?_, ?_⟩
  · intro h; simp [computeReadiness, h]
  · intro h1 h2; simp [computeReadiness, h1, h2]
  · intro h1 h2 h3 h4; simp [computeReadiness, h1, h2, h3, h4]
  · intro h1 h2 h3 h4; simp [computeReadiness, h1, h2, h3, h4]
  · intro h1 h2 h3 h4; simp [computeReadiness, h1, h2, h3, h4]
  · intro d h1 h2 h3 h4 hd hle
    rw [hd] at h2
    simp [computeReadiness, h1, h2, h3, h4, hd, hle]
  · intro h1 h2 h3 h4 hfar
    cases hd : r.dueDate with
    | none => simp [computeReadiness, h1, h2, h3, h4, hd, pastDueOf]
    | some d =>
      have hgt := hfar d hd
      rw [hd] at h2
      simp [computeReadiness, h1, h2, h3, h4, hd, not_le.mpr hgt]

/-- C1 witness: a released record with an already-passed due date evaluates
green/"Released" via rule 1. -/
theorem computeReadiness_rule_order_witness :
    computeReadiness 0 (mkRelease true (some (-86400))) none false
      = ⟨"green", "Released"⟩ :=
  (computeReadiness_rule_order 0 (mkRelease true (some (-86400))) none false).1 rfl

/-- C1 counterexample: a due date 80 hours away (more than 3 days, so rules
1-6 of the claim as stated all fail) does not give green — the code returns
yellow "Due date in 3 days" because the truncating day count is 3. -/
theorem computeReadiness_far_due_not_green :
    rFarDue.released = false
  ∧ pastDueOf 0 rFarDue.dueDate = false
  ∧ openIssuesOf (some (mkSummary 0)) = false
  ∧ rFarDue.dueDate = some 288000
  ∧ ¬((288000 : Int) - 0 ≤ 3 * 86400)
  ∧ computeReadiness 0 rFarDue (some (mkSummary 0)) true
      = ⟨"yellow", "Due date in 3 days"⟩
  ∧ computeReadiness 0 rFarDue (some (mkSummary 0)) true
      ≠ ⟨"green", "All checks passing"⟩ := by
  decide

/-- C2 (amended): the evaluator is a deterministic total function of the
release record, issue summary, tests-passed flag AND the wall-clock reading
`now`; for a fixed `now` it reads only `released`, `dueDate` and whether the
summary reports a positive open count. -/
theorem computeReadiness_deterministic (now : Int) (r₁ r₂ : ReleaseVersion)
    (s₁ s₂ : Option IssueSummary) (t : Bool)
    (hrel : r₁.released = r₂.released) (hdue : r₁.dueDate = r₂.dueDate)
    (hopen : openIssuesOf s₁ = openIssuesOf s₂) :
    computeReadiness now r₁ s₁ t = computeReadiness now r₂ s₂ t := by
  unfold computeReadiness
  rw [hrel, hdue, hopen]

/-- C2 witness: two summaries with equal (zero) open counts give the same
verdict via the determinism theorem. -/
theorem computeReadiness_deterministic_witness :
    computeReadiness 0 rFarDue (some (mkSummary 0)) true
      = computeReadiness 0 rFarDue none true :=
  computeReadiness_deterministic 0 rFarDue rFarDue (some (mkSummary 0)) none
    true rfl rfl (by decide)

/-- C2 counterexample: equal release/summary/tests inputs, different clock
readings, different verdicts — the function does depend on the wall clock
(`now := time.Now()` in the source). -/
theorem computeReadiness_clock_dependent :
    computeReadiness 0 rFarDue (some (mkSummary 0)) true
      ≠ computeReadiness 400000 rFarDue (some (mkSummary 0)) true := by
  decide

/-! ### C3: syncVersion set reconciliation -/

/-- The upserted record itself is always present after an upsert. -/
theorem upsertJiraIssue_self_mem (st : List JiraIssueRecord)
    (r : JiraIssueRecord) : r ∈ upsertJiraIssue st r := by
  unfold upsertJiraIssue
  by_cases h : st.any (sameIssueKey r) = true
  · simp only [h, if_true]
    obtain ⟨r0, hr0, hkey⟩ := List.any_eq_true.mp h
    refine List.mem_map.mpr ⟨r0, hr0, ?_⟩
    simp [hkey]
  · simp [h]

/-- Upserting another record never removes a (key, fixVersion) pair. -/
theorem upsertJiraIssue_preserves (st : List JiraIssueRecord)
    (rec : JiraIssueRecord) (k v : String)
    (h : ∃ r ∈ st, r.key = k ∧ r.fixVersion = v) :
    ∃ r ∈ upsertJiraIssue st rec, r.key = k ∧ r.fixVersion = v := by
  obtain ⟨r, hr, hrk, hrv⟩ := h
  unfold upsertJiraIssue
  by_cases hany : st.any (sameIssueKey rec) = true
  · simp only [hany, if_true]
    by_cases hsame : sameIssueKey rec r = true
    · refine ⟨rec, List.mem_map.mpr ⟨r, hr, by simp [hsame]⟩, ?_⟩
      have := hsame
      simp only [sameIssueKey, Bool.and_eq_true, beq_iff_eq] at this
      exact ⟨this.1 ▸ hrk, this.2 ▸ hrv⟩
    · exact ⟨r, List.mem_map.mpr ⟨r, hr, by simp [hsame]⟩, hrk, hrv⟩
  · simp only [hany, if_false]
    exact ⟨r, List.mem_append_left _ hr, hrk, hrv⟩

/-- The upsert fold of syncVersion preserves a present (key, fixVersion). -/
theorem syncUpserts_preserves (baseURL v k : String) (issues : List Issue)
    (st : List JiraIssueRecord)
    (h : ∃ r ∈ st, r.key = k ∧ r.fixVersion = v) :
    ∃ r ∈ issues.foldl
        (fun acc issue => upsertJiraIssue acc (issueToRecord baseURL v issue)) st,
      r.key = k ∧ r.fixVersion = v := by
  induction issues generalizing st with
  | nil => exact h
  | cons i rest ih =>
    exact ih _ (upsertJiraIssue_preserves _ _ _ _ h)

/-- Every returned issue key is present (for this fixVersion) after the
upsert fold of syncVersion. -/
theorem syncUpserts_establishes (baseURL v k : String) (issues : List Issue)
    (st : List JiraIssueRecord) (hk : k ∈ issues.map Issue.key) :
    ∃ r ∈ issues.foldl
        (fun acc issue => upsertJiraIssue acc (issueToRecord baseURL v issue)) st,
      r.key = k ∧ r.fixVersion = v := by
  induction issues generalizing st with
  | nil => simp at hk
  | cons i rest ih =>
    simp only [List.map_cons, List.mem_cons] at hk
    rcases hk with hk | hk
    · refine syncUpserts_preserves baseURL v k rest _ ?_
      exact ⟨issueToRecord baseURL v i, upsertJiraIssue_self_mem _ _, hk.symm, rfl⟩
    · exact ih _ hk

/-- C3: after syncVersion(v) completes (store writes all succeeding in the
model), the stored issue keys for release v are exactly the keys returned by
SearchIssues(v): every returned issue is upserted under (key, v) and every
other previously stored row for v is deleted — including deleting all rows
for v when zero issues are returned. -/
theorem syncVersion_set_equality (baseURL : String)
    (store : List JiraIssueRecord) (v : String) (issues : List Issue)
    (k : String) :
    (∃ r ∈ syncVersion baseURL store v issues, r.key = k ∧ r.fixVersion = v)
      ↔ k ∈ issues.map Issue.key := by
  unfold syncVersion deleteJiraIssuesNotIn
  by_cases hempty : (issues.map Issue.key).isEmpty = true
  · have hnil : issues = [] := by
      cases issues with
      | nil => rfl
      | cons a l => simp at hempty
    subst hnil
    constructor
    · rintro ⟨r, hr, hrk, hrv⟩
      simp only [List.map_nil, List.isEmpty_nil, if_true] at hr
      have := (List.mem_filter.mp hr).2
      simp [hrv] at this
    · intro h; simp at h
  · simp only [hempty, if_false]
    constructor
    · rintro ⟨r, hr, hrk, hrv⟩
      have hmem := List.mem_filter.mp hr
      have hpred := hmem.2
      simp only [hrv, beq_self_eq_true, Bool.true_and, Bool.not_not,
        Bool.not_eq_true'] at hpred
      have : r.key ∈ issues.map Issue.key := by simpa using hpred
      exact hrk ▸ this
    · intro hk
      obtain ⟨r, hr, hrk, hrv⟩ := syncUpserts_establishes baseURL v k issues store hk
      refine ⟨r, List.mem_filter.mpr ⟨hr, ?_⟩, hrk, hrv⟩
      have hkr : r.key ∈ issues.map Issue.key := by rw [hrk]; exact hk
      have hcont : (issues.map Issue.key).contains r.key = true := by
        simpa using hkr
      simp only [hcont, Bool.not_and, Bool.not_not, Bool.or_eq_true]
      exact Or.inr (by simp)

/-! ### C5: issue-tracker reconciliation of non-rediscovered versions -/

/-- Membership in the lookup log of the reconciliation pass. -/
theorem reconcilePhase_lookedUp (getVersion : String → Option VersionField)
    (activeSet : List String) (dbVersions : List ReleaseVersion)
    (name : String) :
    name ∈ (reconcilePhase getVersion activeSet dbVersions).lookedUp ↔
      ∃ dbv ∈ dbVersions, dbv.name = name ∧
        activeSet.contains dbv.name = false := by
  induction dbVersions with
  | nil => simp [reconcilePhase]
  | cons dbv rest ih =>
    unfold reconcilePhase
    by_cases hact : activeSet.contains dbv.name = true
    · simp only [hact, if_true, ih]
      aesop
    · have hact' : activeSet.contains dbv.name = false := by simpa using hact
      simp only [hact', Bool.false_eq_true, if_false]
      cases hgv : getVersion dbv.name with
      | none =>
        simp only [List.mem_cons, ih]
        aesop
      | some vi =>
        by_cases hrel : (vi.released || vi.archived) = true
        · simp only [hrel, if_true, List.mem_cons, ih]
          aesop
        · simp only [hrel, if_false, List.mem_cons, ih]
          aesop

/-- Membership in the re-sync list of the reconciliation pass. -/
theorem reconcilePhase_synced (getVersion : String → Option VersionField)
    (activeSet : List String) (dbVersions : List ReleaseVersion)
    (name : String) :
    name ∈ (reconcilePhase getVersion activeSet dbVersions).synced ↔
      ∃ dbv ∈ dbVersions, dbv.name = name ∧
        activeSet.contains dbv.name = false ∧
        ∃ vi, getVersion dbv.name = some vi ∧
          (vi.released || vi.archived) = true := by
  induction dbVersions with
  | nil => simp [reconcilePhase]
  | cons dbv rest ih =>
    unfold reconcilePhase
    by_cases hact : activeSet.contains dbv.name = true
    · simp only [hact, if_true, ih]
      aesop
    · have hact' : activeSet.contains dbv.name = false := by simpa using hact
      simp only [hact', Bool.false_eq_true, if_false]
      cases hgv : getVersion dbv.name with
      | none =>
        simp only [ih]
        aesop
      | some vi =>
        by_cases hrel : (vi.released || vi.archived) = true
        · simp only [hrel, if_true, List.mem_cons, ih]
          aesop
        · simp only [hrel, if_false, ih]
          aesop

/-- Membership in the upsert list of the reconciliation pass. -/
theorem reconcilePhase_upserts (getVersion : String → Option VersionField)
    (activeSet : List String) (dbVersions : List ReleaseVersion)
    (rv : ReleaseVersion) :
    rv ∈ (reconcilePhase getVersion activeSet dbVersions).upserts ↔
      ∃ dbv ∈ dbVersions, activeSet.contains dbv.name = false ∧
        ∃ vi, getVersion dbv.name = some vi ∧
          (vi.released || vi.archived) = true ∧
          rv = reconcileUpdate dbv vi := by
  induction dbVersions with
  | nil => simp [reconcilePhase]
  | cons dbv rest ih =>
    unfold reconcilePhase
    by_cases hact : activeSet.contains dbv.name = true
    · simp only [hact, if_true, ih]
      aesop
    · have hact' : activeSet.contains dbv.name = false := by simpa using hact
      simp only [hact', Bool.false_eq_true, if_false]
      cases hgv : getVersion dbv.name with
      | none =>
        simp only [ih]
        aesop
      | some vi =>
        by_cases hrel : (vi.released || vi.archived) = true
        · simp only [hrel, if_true, List.mem_cons, ih]
          aesop
        · simp only [hrel, if_false, ih]
          aesop

/-- C5: during SyncOnce's reconciliation, a stored active version gets a
direct GetVersion lookup exactly when it was not rediscovered this cycle;
its issues are re-synced exactly when that lookup reports released or
archived; and the records upserted are exactly those versions updated with
the looked-up released/archived flags and release date (`reconcileUpdate`).
A failed lookup or a still-unreleased, unarchived report contributes no
upsert and no sync. -/
theorem reconcilePhase_spec (getVersion : String → Option VersionField)
    (activeSet : List String) (dbVersions : List ReleaseVersion) :
    (∀ name, name ∈ (reconcilePhase getVersion activeSet dbVersions).lookedUp ↔
      ∃ dbv ∈ dbVersions, dbv.name = name ∧
        activeSet.contains dbv.name = false)
  ∧ (∀ name, name ∈ (reconcilePhase getVersion activeSet dbVersions).synced ↔
      ∃ dbv ∈ dbVersions, dbv.name = name ∧
        activeSet.contains dbv.name = false ∧
        ∃ vi, getVersion dbv.name = some vi ∧
          (vi.released || vi.archived) = true)
  ∧ (∀ rv, rv ∈ (reconcilePhase getVersion activeSet dbVersions).upserts ↔
      ∃ dbv ∈ dbVersions, activeSet.contains dbv.name = false ∧
        ∃ vi, getVersion dbv.name = some vi ∧
          (vi.released || vi.archived) = true ∧
          rv = reconcileUpdate dbv vi) :=
  ⟨reconcilePhase_lookedUp getVersion activeSet dbVersions,
   reconcilePhase_synced getVersion activeSet dbVersions,
   reconcilePhase_upserts getVersion activeSet dbVersions⟩

/-! ### C4: object-store syncer idempotence and additivity -/

/-- `st'` holds every row of `st`, in place, plus possibly appended ones:
the store grew only additively. -/
def StoreExtends (st st' : StoreState) : Prop :=
  ∃ a b c d,
    st'.snapshots = st.snapshots ++ a ∧
    st'.components = st.components ++ b ∧
    st'.snapshotComponents = st.snapshotComponents ++ c ∧
    st'.snapshotTestResults = st.snapshotTestResults ++ d

theorem storeExtends_refl (st : StoreState) : StoreExtends st st :=
  ⟨[], [], [], [], by simp, by simp, by simp, by simp⟩

theorem storeExtends_trans {s1 s2 s3 : StoreState}
    (h1 : StoreExtends s1 s2) (h2 : StoreExtends s2 s3) : StoreExtends s1 s3 := by
  obtain ⟨a, b, c, d, ha, hb, hc, hd⟩ := h1
  obtain ⟨a', b', c', d', ha', hb', hc', hd'⟩ := h2
  exact ⟨a ++ a', b ++ b', c ++ c', d ++ d',
    by rw [ha', ha, List.append_assoc],
    by rw [hb', hb, List.append_assoc],
    by rw [hc', hc, List.append_assoc],
    by rw [hd', hd, List.append_assoc]⟩

theorem ensureComponent_extends (st : StoreState) (name : String) :
    StoreExtends st (ensureComponent st name) := by
  unfold ensureComponent
  by_cases h : st.components.contains name = true
  · simp only [h, if_true]; exact storeExtends_refl st
  · simp only [h, Bool.false_eq_true, if_false]
    exact ⟨[], [name], [], [], by simp, by simp, by simp, by simp⟩

theorem createSnapshotComponent_extends (st : StoreState) (snapshotID : Nat)
    (component gitSHA imageURL gitURL : String) :
    StoreExtends st (createSnapshotComponent st snapshotID component gitSHA imageURL gitURL) :=
  ⟨[], [], [{ snapshotID := snapshotID, component := component, gitSHA := gitSHA
              imageURL := imageURL, gitURL := gitURL }], [],
    by simp [createSnapshotComponent], by simp [createSnapshotComponent],
    by simp [createSnapshotComponent], by simp [createSnapshotComponent]⟩

theorem createSnapshotTestResult_extends (st : StoreState) (snapshotID : Nat)
    (scenario status pipelineRun : String)
    (total passed failed skipped durationSec : Int) :
    StoreExtends st (createSnapshotTestResult st snapshotID scenario status
      pipelineRun total passed failed skipped durationSec) :=
  ⟨[], [], [],
    [{ snapshotID := snapshotID, scenario := scenario, status := status
       pipelineRun := pipelineRun, total := total, passed := passed
       failed := failed, skipped := skipped, durationSec := durationSec }],
    by simp [createSnapshotTestResult], by simp [createSnapshotTestResult],
    by simp [createSnapshotTestResult], by simp [createSnapshotTestResult]⟩

theorem foldl_extends {β : Type} (f : StoreState → β → StoreState)
    (h : ∀ acc x, StoreExtends acc (f acc x)) :
    ∀ (l : List β) (st : StoreState), StoreExtends st (l.foldl f st) := by
  intro l
  induction l with
  | nil => intro st; exact storeExtends_refl st
  | cons x xs ih =>
    intro st
    exact storeExtends_trans (h st x) (ih (f st x))

theorem createSnapshot_extends (st : StoreState) (application name
    triggerComponent triggerGitSHA triggerPipelineRun : String)
    (testsPassed released : Bool) (releaseBlockedReason : String)
    (createdAt : Int) :
    StoreExtends st (createSnapshot st application name triggerComponent
      triggerGitSHA triggerPipelineRun testsPassed released
      releaseBlockedReason createdAt).1 :=
  ⟨[_], [], [], [], rfl, by simp [createSnapshot], by simp [createSnapshot],
    by simp [createSnapshot]⟩

theorem ingest_extends (client : S3Client) (st : StoreState) (key : String)
    (snap : Snapshot) : StoreExtends st (ingest client st key snap) := by
  unfold ingest
  refine storeExtends_trans
    (createSnapshot_extends st snap.application snap.snapshot
      snap.trigger.component snap.trigger.gitSHA snap.trigger.pipelineRun
      snap.readiness.testsPassed snap.readiness.released
      snap.readiness.releaseBlockedReason snap.createdAt)
    (storeExtends_trans (foldl_extends _ ?_ _ _) (foldl_extends _ ?_ _ _))
  · intro acc comp
    exact storeExtends_trans (ensureComponent_extends acc comp.name)
      (createSnapshotComponent_extends _ _ _ _ _ _)
  · intro acc tr
    exact createSnapshotTestResult_extends acc _ _ _ _ _ _ _ _ _

theorem s3SyncOnce_extends (client : S3Client) (st : StoreState) :
    StoreExtends st (s3SyncOnce client st) := by
  unfold s3SyncOnce
  cases client.listApplications with
  | none => exact storeExtends_refl st
  | some apps =>
    refine foldl_extends _ (fun acc app => ?_) apps st
    cases client.listSnapshots app with
    | none => exact storeExtends_refl acc
    | some keys =>
      refine foldl_extends _ (fun acc2 key => ?_) keys acc
      cases client.getSnapshot key with
      | none => exact storeExtends_refl acc2
      | some snap =>
        by_cases h : snapshotExistsByName acc2 snap.snapshot = true
        · simp only [h, if_true]; exact storeExtends_refl acc2
        · simp only [h, Bool.false_eq_true, if_false]
          exact ingest_extends client acc2 key snap

theorem ensureComponent_snapshots (st : StoreState) (name : String) :
    (ensureComponent st name).snapshots = st.snapshots := by
  unfold ensureComponent
  split <;> rfl

/-- A fold whose step never touches the snapshots table leaves it alone. -/
theorem foldl_snapshots_eq {β : Type} (f : StoreState → β → StoreState)
    (h : ∀ acc x, (f acc x).snapshots = acc.snapshots) :
    ∀ (l : List β) (st : StoreState), (l.foldl f st).snapshots = st.snapshots := by
  intro l
  induction l with
  | nil => intro st; rfl
  | cons x xs ih => intro st; rw [List.foldl_cons, ih, h]

/-- ingest appends exactly one snapshot row, named after the manifest. -/
theorem ingest_snapshots (client : S3Client) (st : StoreState) (key : String)
    (snap : Snapshot) :
    ∃ row : SnapshotRecord, row.name = snap.snapshot ∧
      (ingest client st key snap).snapshots = st.snapshots ++ [row] := by
  refine ⟨{ id := st.snapshots.length, application := snap.application
            name := snap.snapshot, triggerComponent := snap.trigger.component
            triggerGitSHA := snap.trigger.gitSHA
            triggerPipelineRun := snap.trigger.pipelineRun
            testsPassed := snap.readiness.testsPassed
            released := snap.readiness.released
            releaseBlockedReason := snap.readiness.releaseBlockedReason
            createdAt := snap.createdAt }, rfl, ?_⟩
  unfold ingest
  simp only []
  rw [foldl_snapshots_eq]
  · rw [foldl_snapshots_eq]
    · rfl
    · intro acc comp
      exact ensureComponent_snapshots acc comp.name
  · intro acc tr
    rfl

/-- A non-true existence check means the name is absent from the table. -/
theorem snapshotExistsByName_false (st : StoreState) (name : String)
    (h : ¬snapshotExistsByName st name = true) :
    name ∉ st.snapshots.map SnapshotRecord.name := by
  intro hmem
  apply h
  unfold snapshotExistsByName
  obtain ⟨r, hr, hrn⟩ := List.mem_map.mp hmem
  exact List.any_eq_true.mpr ⟨r, hr, by simp [hrn]⟩

/-- A fold whose step preserves a store property propagates it. -/
theorem foldl_preserves_prop {β : Type} (P : StoreState → Prop)
    (f : StoreState → β → StoreState) (h : ∀ acc x, P acc → P (f acc x)) :
    ∀ (l : List β) (st : StoreState), P st → P (l.foldl f st) := by
  intro l
  induction l with
  | nil => intro st hst; exact hst
  | cons x xs ih => intro st hst; exact ih (f st x) (h st x hst)

/-- The inner key fold of SyncOnce is the identity when every manifest it
can fetch names a snapshot that already exists in the accumulator store. -/
theorem syncKeys_noop (client : S3Client) (st : StoreState) (keys : List String)
    (h : ∀ key ∈ keys, ∀ snap, client.getSnapshot key = some snap →
      snapshotExistsByName st snap.snapshot = true) :
    keys.foldl (fun acc2 key =>
      match client.getSnapshot key with
      | none => acc2
      | some snap =>
        if snapshotExistsByName acc2 snap.snapshot then acc2
        else ingest client acc2 key snap) st = st := by
  induction keys with
  | nil => rfl
  | cons key rest ih =>
    have hstep :
        (match client.getSnapshot key with
          | none => st
          | some snap =>
            if snapshotExistsByName st snap.snapshot then st
            else ingest client st key snap) = st := by
      cases hg : client.getSnapshot key with
      | none => rfl
      | some snap => simp [h key (List.mem_cons_self _ _) snap hg]
    simp only [List.foldl_cons, hstep]
    exact ih (fun k hk snap hg => h k (List.mem_cons_of_mem _ hk) snap hg)

/-- The application fold of SyncOnce is the identity when every manifest
reachable through the listing names an already-stored snapshot. -/
theorem syncApps_noop (client : S3Client) (st : StoreState) (apps : List String)
    (h : ∀ app ∈ apps, ∀ key ∈ (client.listSnapshots app).getD [], ∀ snap,
        client.getSnapshot key = some snap →
        snapshotExistsByName st snap.snapshot = true) :
    apps.foldl (fun acc app =>
      match client.listSnapshots app with
      | none => acc
      | some keys => keys.foldl (fun acc2 key =>
          match client.getSnapshot key with
          | none => acc2
          | some snap =>
            if snapshotExistsByName acc2 snap.snapshot then acc2
            else ingest client acc2 key snap) acc) st = st := by
  induction apps with
  | nil => rfl
  | cons app rest ih =>
    have hstep :
        (match client.listSnapshots app with
          | none => st
          | some keys => keys.foldl (fun acc2 key =>
              match client.getSnapshot key with
              | none => acc2
              | some snap =>
                if snapshotExistsByName acc2 snap.snapshot then acc2
                else ingest client acc2 key snap) st) = st := by
      cases hl : client.listSnapshots app with
      | none => rfl
      | some keys =>
        refine syncKeys_noop client st keys ?_
        intro key hk snap hg
        refine h app (List.mem_cons_self _ _) key ?_ snap hg
        rw [hl]
        exact hk
    simp only [List.foldl_cons, hstep]
    exact ih (fun a ha => h a (List.mem_cons_of_mem _ ha))

/-- C4: SyncOnce on the object-store syncer (a) only appends rows — it never
updates or deletes an existing Snapshot, component or test-result row;
(b) is a no-op when every snapshot name the upstream listing can deliver
already exists in the store (each is skipped via the existence check), so a
re-run with no new upstream snapshots leaves the store unchanged; and
(c) preserves uniqueness of snapshot names — it never creates a duplicate
Snapshot row for a name, even when the same name appears under several keys
of the same run. -/
theorem s3SyncOnce_idempotent_additive (client : S3Client) (st : StoreState) :
    StoreExtends st (s3SyncOnce client st)
  ∧ (noNewSnapshots client st = true → s3SyncOnce client st = st)
  ∧ ((st.snapshots.map SnapshotRecord.name).Nodup →
      ((s3SyncOnce client st).snapshots.map SnapshotRecord.name).Nodup) := by
  refine ⟨s3SyncOnce_extends client st, ?_, ?_⟩
  · intro h
    unfold s3SyncOnce
    unfold noNewSnapshots at h
    cases happs : client.listApplications with
    | none => rfl
    | some apps =>
      rw [happs] at h
      have hall := List.all_eq_true.mp h
      refine syncApps_noop client st apps ?_
      intro app ha key hk snap hg
      have happ := hall app ha
      cases hl : client.listSnapshots app with
      | none =>
        rw [hl] at hk
        simp at hk
      | some keys =>
        rw [hl] at happ hk
        have := List.all_eq_true.mp happ key (by simpa using hk)
        rw [hg] at this
        exact this
  · intro hnd
    unfold s3SyncOnce
    cases client.listApplications with
    | none => exact hnd
    | some apps =>
      refine foldl_preserves_prop
        (fun s => (s.snapshots.map SnapshotRecord.name).Nodup) _ ?_ apps st hnd
      intro acc app hacc
      cases client.listSnapshots app with
      | none => exact hacc
      | some keys =>
        refine foldl_preserves_prop
          (fun s => (s.snapshots.map SnapshotRecord.name).Nodup) _ ?_ keys acc hacc
        intro acc2 key hacc2
        cases hg : client.getSnapshot key with
        | none => exact hacc2
        | some snap =>
          by_cases hex : snapshotExistsByName acc2 snap.snapshot = true
          · simpa [hex] using hacc2
          · have hnotin := snapshotExistsByName_false acc2 snap.snapshot hex
            obtain ⟨row, hrn, hrs⟩ := ingest_snapshots client acc2 key snap
            simp only [hex, Bool.false_eq_true, if_false]
            rw [hrs]
            simp only [List.map_append, List.map_cons, List.map_nil]
            rw [List.nodup_append]
            refine ⟨hacc2, List.nodup_singleton _, ?_⟩
            intro x hx hx'
            simp only [List.mem_singleton] at hx'
            rw [hx', hrn] at hx
            exact hnotin hx

/-- A store already holding snapshot "snap-a". -/
def stEx : StoreState :=
  { snapshots := [{ id := 0, application := "quay-v3-16", name := "snap-a"
                    triggerComponent := "quay", triggerGitSHA := "abc"
                    triggerPipelineRun := "", testsPassed := true
                    released := false, releaseBlockedReason := ""
                    createdAt := 0 }]
    components := [], snapshotComponents := [], snapshotTestResults := [] }

/-- The manifest for "snap-a" as the upstream serves it. -/
def snapEx : Snapshot :=
  { application := "quay-v3-16", snapshot := "snap-a", createdAt := 0
    trigger := { component := "quay", gitSHA := "abc", pipelineRun := "" }
    components := [], testResults := []
    readiness := { testsPassed := true, released := false, releaseBlockedReason := "" } }

/-- An upstream whose only snapshot is the already-stored "snap-a". -/
def clientEx : S3Client :=
  { listApplications := some ["quay-v3-16"]
    listSnapshots := fun _ => some ["quay-v3-16/snapshots/snap-a/snapshot.json"]
    getSnapshot := fun _ => some snapEx
    getTestResults := fun _ => none }

/-- C4 witness: with no new upstream snapshots, SyncOnce leaves the concrete
store exactly unchanged and keeps its snapshot names duplicate-free. -/
theorem s3SyncOnce_idempotent_additive_witness :
    noNewSnapshots clientEx stEx = true
  ∧ s3SyncOnce clientEx stEx = stEx
  ∧ ((s3SyncOnce clientEx stEx).snapshots.map SnapshotRecord.name).Nodup :=
  ⟨rfl, (s3SyncOnce_idempotent_additive clientEx stEx).2.1 rfl,
    (s3SyncOnce_idempotent_additive clientEx stEx).2.2 (by decide)⟩

/-! ### C6, C7: retry wrapper delays and retry bound -/

/-- The wrapper only ever appends to the event accumulator. -/
theorem doGetWithRetryGo_events (responses : Nat → GetResult) (minDelay : Nat) :
    ∀ (fuel attempt : Nat) (events : List RetryEvent) (calls : Nat),
    ∃ rest, (doGetWithRetryGo responses minDelay fuel attempt events calls).1
      = events ++ rest := by
  intro fuel
  induction fuel with
  | zero =>
    intro attempt events calls
    exact ⟨[], by simp [doGetWithRetryGo]⟩
  | succ fuel ih =>
    intro attempt events calls
    unfold doGetWithRetryGo
    simp only []
    cases hr : responses attempt with
    | ok body =>
      by_cases hc : 0 < attempt ∨ 0 < minDelay
      · exact ⟨[RetryEvent.wait (if 0 < attempt then 2 ^ attempt else minDelay),
          RetryEvent.request attempt], by simp [hc, List.append_assoc]⟩
      · exact ⟨[RetryEvent.request attempt], by simp [hc]⟩
    | otherError msg =>
      by_cases hc : 0 < attempt ∨ 0 < minDelay
      · exact ⟨[RetryEvent.wait (if 0 < attempt then 2 ^ attempt else minDelay),
          RetryEvent.request attempt], by simp [hc, List.append_assoc]⟩
      · exact ⟨[RetryEvent.request attempt], by simp [hc]⟩
    | rateLimited ra body =>
      by_cases hlt : attempt < maxRetries
      · by_cases hh : 0 < parseRetryAfter ra
        · obtain ⟨r2, hr2⟩ := ih (attempt + 1)
            (((if 0 < attempt ∨ 0 < minDelay then
                events ++ [RetryEvent.wait (if 0 < attempt then 2 ^ attempt else minDelay)]
              else events) ++ [RetryEvent.request attempt]) ++ [RetryEvent.wait (parseRetryAfter ra)])
            (calls + 1)
          by_cases hc : 0 < attempt ∨ 0 < minDelay
          · refine ⟨[RetryEvent.wait (if 0 < attempt then 2 ^ attempt else minDelay),
              RetryEvent.request attempt, RetryEvent.wait (parseRetryAfter ra)] ++ r2, ?_⟩
            simp [hc, hlt, hh] at hr2 ⊢
            simp [hr2, List.append_assoc]
          · refine ⟨[RetryEvent.request attempt, RetryEvent.wait (parseRetryAfter ra)] ++ r2, ?_⟩
            simp [hc, hlt, hh] at hr2 ⊢
            simp [hr2, List.append_assoc]
        · obtain ⟨r2, hr2⟩ := ih (attempt + 1)
            ((if 0 < attempt ∨ 0 < minDelay then
                events ++ [RetryEvent.wait (if 0 < attempt then 2 ^ attempt else minDelay)]
              else events) ++ [RetryEvent.request attempt])
            (calls + 1)
          by_cases hc : 0 < attempt ∨ 0 < minDelay
          · refine ⟨[RetryEvent.wait (if 0 < attempt then 2 ^ attempt else minDelay),
              RetryEvent.request attempt] ++ r2, ?_⟩
            simp [hc, hlt, hh] at hr2 ⊢
            simp [hr2, List.append_assoc]
          · refine ⟨[RetryEvent.request attempt] ++ r2, ?_⟩
            simp [hc, hlt, hh] at hr2 ⊢
            simp [hr2, List.append_assoc]
      · by_cases hc : 0 < attempt ∨ 0 < minDelay
        · exact ⟨[RetryEvent.wait (if 0 < attempt then 2 ^ attempt else minDelay),
            RetryEvent.request attempt], by simp [hc, hlt, List.append_assoc]⟩
        · exact ⟨[RetryEvent.request attempt], by simp [hc, hlt]⟩

/-- Unfolding the first iteration when attempt 0 is rate limited: the fixed
1-second minimum delay, the request, then any positive hint wait, and the
loop continues at attempt 1. -/
theorem doGetWithRetryGo_first_rateLimited (responses : Nat → GetResult)
    (ra body : String) (h0 : responses 0 = GetResult.rateLimited ra body) :
    doGetWithRetryGo responses 1 4 0 [] 0 =
      doGetWithRetryGo responses 1 3 1
        (if 0 < parseRetryAfter ra
          then [RetryEvent.wait 1, RetryEvent.request 0,
                RetryEvent.wait (parseRetryAfter ra)]
          else [RetryEvent.wait 1, RetryEvent.request 0]) 1 := by
  conv_lhs => rw [doGetWithRetryGo]
  simp [h0, maxRetries]

/-- Every iteration at a positive attempt number first waits the 2^attempt
exponential backoff and then issues the request, whatever the response. -/
theorem doGetWithRetryGo_step_pos (responses : Nat → GetResult)
    (fuel attempt : Nat) (events : List RetryEvent) (calls : Nat)
    (ha : 0 < attempt) :
    ∃ rest, (doGetWithRetryGo responses 1 (fuel + 1) attempt events calls).1
      = events ++ [RetryEvent.wait (2 ^ attempt), RetryEvent.request attempt] ++ rest := by
  cases hr : responses attempt with
  | ok body =>
    refine ⟨[], ?_⟩
    conv_lhs => rw [doGetWithRetryGo]
    simp [hr, ha]
  | otherError msg =>
    refine ⟨[], ?_⟩
    conv_lhs => rw [doGetWithRetryGo]
    simp [hr, ha]
  | rateLimited ra body =>
    by_cases hlt : attempt < maxRetries
    · by_cases hh : 0 < parseRetryAfter ra
      · obtain ⟨r2, hr2⟩ := doGetWithRetryGo_events responses 1 fuel (attempt + 1)
          (events ++ [RetryEvent.wait (2 ^ attempt), RetryEvent.request attempt,
            RetryEvent.wait (parseRetryAfter ra)]) (calls + 1)
        refine ⟨[RetryEvent.wait (parseRetryAfter ra)] ++ r2, ?_⟩
        conv_lhs => rw [doGetWithRetryGo]
        simp [hr, ha, hlt, hh, hr2]
      · obtain ⟨r2, hr2⟩ := doGetWithRetryGo_events responses 1 fuel (attempt + 1)
          (events ++ [RetryEvent.wait (2 ^ attempt), RetryEvent.request attempt]) (calls + 1)
        refine ⟨r2, ?_⟩
        conv_lhs => rw [doGetWithRetryGo]
        simp [hr, ha, hlt, hh, hr2]
    · refine ⟨[], ?_⟩
      conv_lhs => rw [doGetWithRetryGo]
      simp [hr, ha, hlt]

/-- C6 (amended): after a rate-limited first attempt the wrapper waits the
positive retry-after hint immediately — but the 2^attempt exponential
backoff is applied before every retried request regardless, so a hinted
retry is preceded by BOTH the hint wait and the backoff wait (hint, then
2^1 = 2 s); only the absence of a (positive) hint makes the backoff the
sole delay. The two delays are not alternatives in the code. -/
theorem doGetWithRetry_hint_then_backoff (responses : Nat → GetResult)
    (ra body : String) (h0 : responses 0 = GetResult.rateLimited ra body) :
    (0 < parseRetryAfter ra →
      ∃ rest, (doGetWithRetry responses).1
        = [RetryEvent.wait 1, RetryEvent.request 0,
           RetryEvent.wait (parseRetryAfter ra), RetryEvent.wait 2,
           RetryEvent.request 1] ++ rest)
  ∧ (parseRetryAfter ra = 0 →
      ∃ rest, (doGetWithRetry responses).1
        = [RetryEvent.wait 1, RetryEvent.request 0, RetryEvent.wait 2,
           RetryEvent.request 1] ++ rest) := by
  constructor
  · intro hh
    obtain ⟨rest, hrest⟩ := doGetWithRetryGo_step_pos responses 2 1
      [RetryEvent.wait 1, RetryEvent.request 0, RetryEvent.wait (parseRetryAfter ra)]
      1 (by decide)
    refine ⟨rest, ?_⟩
    unfold doGetWithRetry
    show (doGetWithRetryGo responses 1 4 0 [] 0).1 = _
    rw [doGetWithRetryGo_first_rateLimited responses ra body h0, if_pos hh]
    simpa using hrest
  · intro hh
    obtain ⟨rest, hrest⟩ := doGetWithRetryGo_step_pos responses 2 1
      [RetryEvent.wait 1, RetryEvent.request 0] 1 (by decide)
    refine ⟨rest, ?_⟩
    unfold doGetWithRetry
    show (doGetWithRetryGo responses 1 4 0 [] 0).1 = _
    rw [doGetWithRetryGo_first_rateLimited responses ra body h0,
      if_neg (by rw [hh]; exact lt_irrefl 0)]
    simpa using hrest

/-- A server that rate limits the first attempt with a 5-second hint and
succeeds on the retry. -/
def rlHintResponses : Nat → GetResult := fun k =>
  if k = 0 then GetResult.rateLimited "5" "" else GetResult.ok "done"

/-- C6 counterexample: with a 5-second hint on the first attempt, the trace
between the two requests is wait 5 THEN wait 2 — both the hint and the
2^1-second backoff precede the same retry, where the claim says the hint
alone (the delays being alternatives). -/
theorem doGetWithRetry_hint_and_backoff_both :
    doGetWithRetry rlHintResponses
      = ([RetryEvent.wait 1, RetryEvent.request 0, RetryEvent.wait 5,
          RetryEvent.wait 2, RetryEvent.request 1], 2, RetryOutcome.success "done")
  ∧ [RetryEvent.wait 5, RetryEvent.wait 2] ≠ [RetryEvent.wait 5] := by
  decide

/-- C6 witness: the amended theorem applied to that server — the trace
starts wait 1, request 0, wait 5, wait 2, request 1. -/
theorem doGetWithRetry_hint_then_backoff_witness :
    ∃ rest, (doGetWithRetry rlHintResponses).1
      = [RetryEvent.wait 1, RetryEvent.request 0, RetryEvent.wait 5,
         RetryEvent.wait 2, RetryEvent.request 1] ++ rest :=
  (doGetWithRetry_hint_then_backoff rlHintResponses "5" "" rfl).1 (by decide)

/-- C7: a client whose every attempt is rate limited makes the wrapper
issue exactly maxRetries + 1 = 4 GETs (the initial request plus the
hardcoded ceiling of 3 retries) and return a terminal rate-limit error —
the loop is bounded; conversely, a non-rate-limit error on the first
attempt is returned immediately after exactly 1 GET, with no retry. -/
theorem doGetWithRetry_retry_bound (responses : Nat → GetResult) :
    ((∀ k, k ≤ maxRetries → ∃ ra body, responses k = GetResult.rateLimited ra body) →
      (doGetWithRetry responses).2.1 = maxRetries + 1 ∧
      ∃ ra body, (doGetWithRetry responses).2.2
        = RetryOutcome.failure (RetryError.rateLimit ra body))
  ∧ (∀ msg, responses 0 = GetResult.otherError msg →
      (doGetWithRetry responses).2.1 = 1 ∧
      (doGetWithRetry responses).2.2
        = RetryOutcome.failure (RetryError.other msg)) := by
  constructor
  · intro h
    obtain ⟨ra0, b0, h0⟩ := h 0 (by decide)
    obtain ⟨ra1, b1, h1⟩ := h 1 (by decide)
    obtain ⟨ra2, b2, h2⟩ := h 2 (by decide)
    obtain ⟨ra3, b3, h3⟩ := h 3 (by decide)
    refine ⟨?_, ra3, b3, ?_⟩ <;>
      simp [doGetWithRetry, doGetWithRetryGo, h0, h1, h2, h3, maxRetries]
  · intro msg hmsg
    exact ⟨by simp [doGetWithRetry, doGetWithRetryGo, hmsg],
      by simp [doGetWithRetry, doGetWithRetryGo, hmsg]⟩

/-- A server that answers every attempt with an unhinted 429. -/
def rlAlwaysResponses : Nat → GetResult := fun _ =>
  GetResult.rateLimited "" "slow down"

/-- C7 witness: against the always-rate-limited server the wrapper makes
exactly 4 calls and fails with the rate-limit error. -/
theorem doGetWithRetry_retry_bound_witness :
    (doGetWithRetry rlAlwaysResponses).2.1 = maxRetries + 1
  ∧ ∃ ra body, (doGetWithRetry rlAlwaysResponses).2.2
      = RetryOutcome.failure (RetryError.rateLimit ra body) :=
  (doGetWithRetry_retry_bound rlAlwaysResponses).1
    (fun _ _ => ⟨"", "slow down", rfl⟩)

/-! ### C8: SearchIssues pagination -/

/-- A server that reports total = 3 and serves pages of at most 2: offset 0
gets [a, b], any later offset gets [c]. -/
def pagedServer (a b c : Issue) : Int → SearchResponse := fun startAt =>
  if startAt == 0 then ⟨3, [a, b]⟩ else ⟨3, [c]⟩

/-- C8: the paging loop accumulates pages and stops exactly when the running
offset plus the returned page length reaches the server-reported total;
against a server reporting total = 3 with 2-issue pages it makes exactly 2
upstream calls and returns the 3 issues merged in order. -/
theorem searchIssues_pagination :
    (∀ a b c : Issue, searchIssues (pagedServer a b c) 10 = some ([a, b, c], 2))
  ∧ (∀ (server : Int → SearchResponse) (fuel : Nat) (startAt : Int)
      (acc : List Issue) (calls : Nat) (out : List Issue × Nat),
      searchIssuesLoop server fuel startAt acc calls = some out →
      ∃ s : Int, s + ((server s).issues.length : Int) ≥ (server s).total) := by
  constructor
  · intro a b c
    rfl
  · intro server fuel
    induction fuel with
    | zero =>
      intro startAt acc calls out h
      simp [searchIssuesLoop] at h
    | succ fuel ih =>
      intro startAt acc calls out h
      unfold searchIssuesLoop at h
      simp only [] at h
      by_cases hstop : startAt + (((server startAt).issues.length : Int)) ≥ (server startAt).total
      · exact ⟨startAt, hstop⟩
      · rw [if_neg hstop] at h
        exact ih _ _ _ _ h

/-- An issue fixture with the given key. -/
def issEx (k : String) : Issue :=
  { key := k
    fields := { summary := "", status := "", priority := "", labels := []
                assignee := none, issuetype := "", resolution := none
                updated := "" } }

/-- C8 witness: the concrete 2-page run terminates, and the offset at which
it stopped satisfies the stop condition. -/
theorem searchIssues_pagination_witness :
    searchIssues (pagedServer (issEx "A") (issEx "B") (issEx "C")) 10
      = some ([issEx "A", issEx "B", issEx "C"], 2)
  ∧ ∃ s : Int, s + (((pagedServer (issEx "A") (issEx "B") (issEx "C") s).issues.length : Int))
      ≥ (pagedServer (issEx "A") (issEx "B") (issEx "C") s).total :=
  ⟨searchIssues_pagination.1 (issEx "A") (issEx "B") (issEx "C"),
   searchIssues_pagination.2 (pagedServer (issEx "A") (issEx "B") (issEx "C"))
     10 0 [] 0 ([issEx "A", issEx "B", issEx "C"], 2)
     (searchIssues_pagination.1 (issEx "A") (issEx "B") (issEx "C"))⟩

/-! ### C9: discovery version derivation -/

/-- C9: "Release Quay v3.16.2" parses to (quay, 3.16.2), giving fixVersion
"quay-v3.16.2" and s3 application "quay-v3-16"; "Release OMR v2.0.10" gives
"omr-v2.0.10" and "omr-v2-0"; a summary without a parsable version pattern
parses to nothing and produces no release, discarding the ticket. -/
theorem discovery_version_derivation :
    ParseVersionFromSummary "Release Quay v3.16.2" = some ("quay", "3.16.2")
  ∧ deriveRelease "Release Quay v3.16.2" = some ("quay-v3.16.2", "quay-v3-16")
  ∧ ParseVersionFromSummary "Release OMR v2.0.10" = some ("omr", "2.0.10")
  ∧ deriveRelease "Release OMR v2.0.10" = some ("omr-v2.0.10", "omr-v2-0")
  ∧ ParseVersionFromSummary "Prepare release checklist" = none
  ∧ deriveRelease "Prepare release checklist" = none
  ∧ (∀ summary, ParseVersionFromSummary summary = none →
      deriveRelease summary = none) := by
  refine ⟨by decide, by decide, by decide, by decide, by decide, by decide, ?_⟩
  intro summary h
  simp [deriveRelease, h]

/-- C9 witness: the generic discard clause applied to the concrete
unparsable summary. -/
theorem discovery_version_derivation_witness :
    deriveRelease "Prepare release checklist" = none :=
  discovery_version_derivation.2.2.2.2.2.2 "Prepare release checklist"
    discovery_version_derivation.2.2.2.2.1

/-! ### C10: Konflux conversion tests-passed aggregate -/

/-- The Convert loop computes `init && all statuses are "passed"`. -/
theorem convertAllPassedGo_eq (l : List TestResult) (init : Bool) :
    convertAllPassedGo init l
      = (init && l.all (fun tr => tr.status == "passed")) := by
  induction l generalizing init with
  | nil => simp [convertAllPassedGo]
  | cons tr rest ih =>
    unfold convertAllPassedGo
    by_cases h : tr.status = "passed"
    · simp [h, ih]
    · simp [h]

/-- C10: Convert records tests-passed = true iff the snapshot has at least
one parsed test result and every result's normalized status is "passed";
in particular a missing status annotation, an empty one, an undecodable one,
or one decoding to zero scenarios all yield tests-passed = false. -/
theorem convert_testsPassed_iff (jsonDecode : String → Option (List TestStatus))
    (cr : SnapshotCR) :
    ((Convert jsonDecode cr).readiness.testsPassed = true ↔
      (parseTestResults jsonDecode cr ≠ [] ∧
        ∀ tr ∈ parseTestResults jsonDecode cr, tr.status = "passed"))
  ∧ (annotationValue cr "test.appstudio.openshift.io/status" = none →
      (Convert jsonDecode cr).readiness.testsPassed = false)
  ∧ (annotationValue cr "test.appstudio.openshift.io/status" = some "" →
      (Convert jsonDecode cr).readiness.testsPassed = false)
  ∧ (∀ raw, annotationValue cr "test.appstudio.openshift.io/status" = some raw →
      jsonDecode raw = none →
      (Convert jsonDecode cr).readiness.testsPassed = false)
  ∧ (∀ raw statuses,
      annotationValue cr "test.appstudio.openshift.io/status" = some raw →
      raw ≠ "" → jsonDecode raw = some statuses →
      ((Convert jsonDecode cr).readiness.testsPassed = true ↔
        statuses ≠ [] ∧ ∀ ts ∈ statuses, normalizeStatus ts.status = "passed")) := by
  have hmain : (Convert jsonDecode cr).readiness.testsPassed
      = (decide (0 < (parseTestResults jsonDecode cr).length)
          && (parseTestResults jsonDecode cr).all (fun tr => tr.status == "passed")) := by
    simp [Convert, convertAllPassedGo_eq]
  refine ⟨?_, ?_, ?_, ?_, ?_⟩
  · rw [hmain]
    constructor
    · intro h
      have h1 := (Bool.and_eq_true _ _).mp h
      refine ⟨?_, ?_⟩
      · intro hnil
        rw [hnil] at h1
        exact absurd h1.1 (by simp)
      · intro tr htr
        have := List.all_eq_true.mp h1.2 tr htr
        simpa using this
    · rintro ⟨hne, hall⟩
      refine (Bool.and_eq_true _ _).mpr ⟨?_, ?_⟩
      · simpa using List.length_pos.mpr hne
      · exact List.all_eq_true.mpr (fun tr htr => by simpa using hall tr htr)
  · intro h
    rw [hmain]
    unfold parseTestResults
    rw [h]
    rfl
  · intro h
    rw [hmain]
    unfold parseTestResults
    rw [h]
    rfl
  · intro raw hraw hdec
    rw [hmain]
    unfold parseTestResults
    rw [hraw]
    simp only []
    by_cases hempty : raw = ""
    · subst hempty; rfl
    · simp [hempty, hdec]
  · intro raw statuses hraw hne hdec
    rw [hmain]
    have hres : parseTestResults jsonDecode cr = statuses.map (fun ts =>
        { scenario := ts.scenario, status := normalizeStatus ts.status
          pipelineRun := "", summary := none : TestResult }) := by
      unfold parseTestResults
      rw [hraw]
      simp only []
      rw [if_neg hne, hdec]
    rw [hres]
    constructor
    · intro h
      have h1 := (Bool.and_eq_true _ _).mp h
      refine ⟨?_, ?_⟩
      · intro hnil
        rw [hnil] at h1
        exact absurd h1.1 (by simp)
      · intro ts hts
        have := List.all_eq_true.mp h1.2 _ (List.mem_map_of_mem _ hts)
        simpa using this
    · rintro ⟨hnil, hall⟩
      refine (Bool.and_eq_true _ _).mpr ⟨?_, ?_⟩
      · simp only [List.length_map]
        simpa using List.length_pos.mpr hnil
      · refine List.all_eq_true.mpr ?_
        intro tr htr
        obtain ⟨ts, hts, rfl⟩ := List.mem_map.mp htr
        simpa using hall ts hts

/-- A snapshot CR whose status annotation decodes to one passed scenario. -/
def crEx : SnapshotCR :=
  { name := "snap-a", creationTimestamp := 0
    annotations := [("test.appstudio.openshift.io/status", "[ok]")]
    application := "quay-v3-16", components := [] }

/-- A decoder fixture: "[ok]" decodes to one Succeeded scenario. -/
def decodeEx : String → Option (List TestStatus) := fun raw =>
  if raw = "[ok]" then some [{ scenario := "e2e", status := "TestSucceeded"
                               lastUpdateTime := "" }]
  else none

/-- C10 witness: one passed scenario gives tests-passed = true; a CR with no
annotation gives tests-passed = false. -/
theorem convert_testsPassed_iff_witness :
    (Convert decodeEx crEx).readiness.testsPassed = true
  ∧ (Convert decodeEx { crEx with annotations := [] }).readiness.testsPassed = false :=
  ⟨((convert_testsPassed_iff decodeEx crEx).2.2.2.2 "[ok]"
      [{ scenario := "e2e", status := "TestSucceeded", lastUpdateTime := "" }]
      (by decide) (by decide) (by decide)).mpr
    ⟨by decide, by decide⟩,
   (convert_testsPassed_iff decodeEx { crEx with annotations := [] }).2.1 (by decide)⟩

end ReleaseReadiness
